import Mathlib

/-!
Verification of the notification-ledger logic of the push-notification demo
client (`src/App.tsx`).  The repository's only internal structure is a small
list of notification records persisted as one JSON blob: an upsert-by-id
operation shared by the four FCM delivery handlers, a "mark all read" bulk
update, an unread-count projection feeding the icon badge, and a
load/save pair over local key-value storage.

The embedding below translates those pieces into Lean.  JavaScript strings
are `String`, the `{[key: string]: string}` data payload is an association
list, JavaScript's `x || default` falsiness idiom on optional strings is
`orDefault`, and the JSON blob handed to `JSON.stringify` / `JSON.parse`
is modelled by an explicit `Json` value tree (a stored string is either
well-formed JSON, i.e. some `Json` value, or malformed, in which case
`JSON.parse` throws).
-/

/-- The `{[key: string]: string}` payload of a remote message, modelled as
its ordered list of key/value properties. -/
abbrev DataMap := List (String × String)

/-- `NotificationContent` from `src/App.tsx` (lines 24-31): one stored
notification record. -/
structure NotificationContent where
  id : String
  title : String
  body : String
  timestamp : Nat
  read : Bool
  data : Option DataMap
deriving DecidableEq, Inhabited, Repr

/-- The optional `notification` block of an FCM `RemoteMessage`: display
title and body, each possibly absent. -/
structure NotificationBlock where
  title : Option String
  body : Option String
deriving DecidableEq, Inhabited, Repr

/-- The slice of `FirebaseMessagingTypes.RemoteMessage` the app reads:
`messageId`, the optional `notification` block and the optional `data` map. -/
structure RemoteMessage where
  messageId : Option String
  notification : Option NotificationBlock
  data : Option DataMap
deriving DecidableEq, Inhabited, Repr

/-- The result of `extractNotificationContent`: title, body and the data
payload passed through (`Omit<NotificationContent, 'id'|'timestamp'|'read'>`). -/
structure Extracted where
  title : String
  body : String
  data : Option DataMap
deriving DecidableEq, Inhabited, Repr

/-- JavaScript's `s || d` on an optional string: an absent (`undefined`)
or empty string is falsy and yields the default. -/
def orDefault (s : Option String) (d : String) : String :=
  match s with
  | some t => if t = "" then d else t
  | none => d

/-- `extractNotificationContent` (`src/App.tsx` lines 34-49): prefer the
`notification` block, else fall back to the `data` block, else the fixed
default strings; the `data` map is always passed through. -/
def extractNotificationContent (remoteMessage : RemoteMessage) : Extracted :=
  let displayTitle := "New Message"
  let displayBody := "You have a new notification."
  match remoteMessage.notification with
  | some notification =>
      { title := orDefault notification.title displayTitle,
        body := orDefault notification.body displayBody,
        data := remoteMessage.data }
  | none =>
      match remoteMessage.data with
      | some d =>
          { title := orDefault (d.lookup "title") displayTitle,
            body := orDefault (d.lookup "body") displayBody,
            data := remoteMessage.data }
      | none =>
          { title := displayTitle, body := displayBody,
            data := remoteMessage.data }

/-- `remoteMessage.messageId || Date.now().toString()` (lines 101, 235,
276, 315): the notification id, falling back to the current time. -/
def notificationIdOf (remoteMessage : RemoteMessage) (now : Nat) : String :=
  orDefault remoteMessage.messageId (toString now)

/-- JavaScript's `Array.prototype.findIndex`: index of the first element
satisfying the predicate (`none` models the `-1` sentinel). -/
def findIndex (p : NotificationContent → Bool) : List NotificationContent → Option Nat
  | [] => none
  | r :: rest => if p r then some 0 else (findIndex p rest).map (· + 1)

/-- The merged record written in the `existingIndex !== -1` branch of every
handler: `{...old, ...extracted, timestamp: Date.now(), read: forced}`.
The spread of `extracted` overwrites `title`, `body` and `data` (the `data`
key is always present on the extracted object, possibly `undefined`). -/
def mergeRecord (old : NotificationContent) (ext : Extracted) (now : Nat)
    (forcedRead : Bool) : NotificationContent :=
  { old with title := ext.title, body := ext.body, data := ext.data,
             timestamp := now, read := forcedRead }

/-- The fresh record pushed in the not-found branch of every handler:
`{id: notificationId, ...extracted, timestamp: Date.now(), read: forced}`. -/
def freshRecord (eid : String) (ext : Extracted) (now : Nat)
    (forcedRead : Bool) : NotificationContent :=
  { id := eid, title := ext.title, body := ext.body, data := ext.data,
    timestamp := now, read := forcedRead }

/-- The merge-or-append step shared verbatim by the four delivery handlers
(`src/App.tsx` lines 103-125, 237-262, 278-303, 317-342): look up the
incoming id with `findIndex`, replace the found record in place by the
merge, otherwise `push` a fresh record at the end. -/
def upsert (records : List NotificationContent) (eid : String) (ext : Extracted)
    (now : Nat) (forcedRead : Bool) : List NotificationContent :=
  match findIndex (fun n => n.id == eid) records with
  | some i => records.set i (mergeRecord (records.getD i default) ext now forcedRead)
  | none => records ++ [freshRecord eid ext now forcedRead]

/-- Structural-recursion presentation of `upsert`, used for induction;
`upsert_eq_upsertRec` proves it coincides with the `findIndex`-based
translation. -/
def upsertRec (records : List NotificationContent) (eid : String) (ext : Extracted)
    (now : Nat) (forcedRead : Bool) : List NotificationContent :=
  match records with
  | [] => [freshRecord eid ext now forcedRead]
  | r :: rest =>
      if r.id == eid then mergeRecord r ext now forcedRead :: rest
      else r :: upsertRec rest eid ext now forcedRead

/-- Core of `markAllNotificationsAsRead` (`src/App.tsx` line 215):
`records.map(notif => ({...notif, read: true}))`. -/
def markAllNotificationsAsRead (records : List NotificationContent) :
    List NotificationContent :=
  records.map (fun notif => { notif with read := true })

/-- The unread count computed by `updateBadgeCount` (`src/App.tsx` line 77):
`notifications.filter(notif => !notif.read).length`.  This is the spec's
`computeUnreadCount`. -/
def unreadCount (notifications : List NotificationContent) : Nat :=
  (notifications.filter (fun notif => !notif.read)).length

/-- The ledger transformation performed by the foreground `onMessage`
handler (lines 232-269): upsert with forced `read := false`. -/
def onMessageUpsert (records : List NotificationContent)
    (remoteMessage : RemoteMessage) (now : Nat) : List NotificationContent :=
  upsert records (notificationIdOf remoteMessage now)
    (extractNotificationContent remoteMessage) now false

/-- The ledger transformation performed by `setBackgroundMessageHandler`
(lines 98-131): upsert with forced `read := false`. -/
def backgroundMessageUpsert (records : List NotificationContent)
    (remoteMessage : RemoteMessage) (now : Nat) : List NotificationContent :=
  upsert records (notificationIdOf remoteMessage now)
    (extractNotificationContent remoteMessage) now false

/-- The ledger transformation performed by the `getInitialNotification`
tap-from-terminated handler (lines 272-309): upsert with forced
`read := true`. -/
def initialNotificationUpsert (records : List NotificationContent)
    (remoteMessage : RemoteMessage) (now : Nat) : List NotificationContent :=
  upsert records (notificationIdOf remoteMessage now)
    (extractNotificationContent remoteMessage) now true

/-- The ledger transformation performed by the `onNotificationOpenedApp`
tap-from-background handler (lines 312-347): upsert with forced
`read := true`. -/
def notificationOpenedAppUpsert (records : List NotificationContent)
    (remoteMessage : RemoteMessage) (now : Nat) : List NotificationContent :=
  upsert records (notificationIdOf remoteMessage now)
    (extractNotificationContent remoteMessage) now true

/-- A JSON value, the shape `JSON.parse` yields on a well-formed stored
string and `JSON.stringify` serializes.  Numbers are restricted to the
naturals, the only numbers this app ever stores (epoch timestamps). -/
inductive Json where
  | str : String → Json
  | num : Nat → Json
  | bool : Bool → Json
  | null : Json
  | arr : List Json → Json
  | obj : List (String × Json) → Json
deriving Inhabited, Repr

/-- A stored string under the `@notifications` key, as `JSON.parse` sees
it: either well-formed JSON denoting some `Json` value, or malformed, in
which case `JSON.parse` throws.  (The empty string, which the code's
truthiness check short-circuits to `[]` before parsing, is malformed JSON,
and both paths return the empty array, so it is covered by `malformed`.) -/
inductive Blob where
  | malformed : Blob
  | wellformed : Json → Blob
deriving Inhabited, Repr

/-- `JSON.parse` on a stored string: the denoted value, or a thrown error. -/
def jsonParse : Blob → Except Unit Json
  | Blob.malformed => Except.error ()
  | Blob.wellformed j => Except.ok j

/-- `JSON.stringify` applied to one record: its JSON object, fields in
declaration order; an `undefined` optional `data` field is omitted. -/
def encodeRecord (n : NotificationContent) : Json :=
  Json.obj
    ([("id", Json.str n.id), ("title", Json.str n.title),
      ("body", Json.str n.body), ("timestamp", Json.num n.timestamp),
      ("read", Json.bool n.read)] ++
     (match n.data with
      | none => []
      | some d => [("data", Json.obj (d.map (fun p => (p.1, Json.str p.2))))]))

/-- `JSON.stringify` applied to the record array. -/
def encodeRecords (records : List NotificationContent) : Json :=
  Json.arr (records.map encodeRecord)

/-- Read a JSON object back as a string-to-string map. -/
def decodeData : List (String × Json) → Option DataMap
  | [] => some ([] : List (String × String))
  | (k, Json.str v) :: rest => (decodeData rest).map (fun d => (k, v) :: d)
  | _ => none

/-- Read a JSON value back as a `NotificationContent` record: the inverse
reading of `encodeRecord`, `none` on any other shape. -/
def decodeRecord : Json → Option NotificationContent
  | Json.obj [("id", Json.str i), ("title", Json.str t), ("body", Json.str b),
              ("timestamp", Json.num ts), ("read", Json.bool r)] =>
      some { id := i, title := t, body := b, timestamp := ts, read := r,
             data := none }
  | Json.obj [("id", Json.str i), ("title", Json.str t), ("body", Json.str b),
              ("timestamp", Json.num ts), ("read", Json.bool r),
              ("data", Json.obj d)] =>
      (decodeData d).map
        (fun dm => { id := i, title := t, body := b, timestamp := ts,
                     read := r, data := some dm })
  | _ => none

/-- Read a list of JSON values back as records; `none` if any fails. -/
def decodeRecordList : List Json → Option (List NotificationContent)
  | [] => some []
  | j :: rest =>
      match decodeRecord j, decodeRecordList rest with
      | some r, some rs => some (r :: rs)
      | _, _ => none

/-- Read a JSON value back as a record array. -/
def decodeRecords : Json → Option (List NotificationContent)
  | Json.arr items => decodeRecordList items
  | _ => none

/-- The `try` body of `loadNotificationsFromStorage` (`src/App.tsx` lines
56-58): a missing (`null`, falsy) stored value yields `[]` without
parsing; otherwise the result of `JSON.parse`, which may throw.  Note the
parsed value is returned as-is, with no check that it is a record array. -/
def loadTryBody (cell : Option Blob) : Except Unit Json :=
  match cell with
  | none => Except.ok (Json.arr [])
  | some b => jsonParse b

/-- `loadNotificationsFromStorage` (`src/App.tsx` lines 55-63): the `try`
body with the `catch` clause mapping any thrown error to `[]` (after
logging).  Total: no error ever reaches the caller. -/
def loadNotificationsFromStorage (cell : Option Blob) : Json :=
  match loadTryBody cell with
  | Except.ok v => v
  | Except.error _ => Json.arr []

/-- `saveNotificationsToStorage` (`src/App.tsx` lines 66-73): the stored
value after a save is the well-formed JSON string serializing the array. -/
def saveNotificationsToStorage (notifications : List NotificationContent) : Blob :=
  Blob.wellformed (encodeRecords notifications)

/-- One delivery event as seen by `upsert`: the derived id, the extracted
display fields, the clock reading and the handler's forced `read` value. -/
structure DeliveryEvent where
  eid : String
  ext : Extracted
  now : Nat
  forcedRead : Bool
deriving DecidableEq, Inhabited, Repr

/-- Apply a sequence of delivery events to a ledger, one `upsert` each. -/
def applyDeliveries (records : List NotificationContent)
    (events : List DeliveryEvent) : List NotificationContent :=
  events.foldl (fun rs e => upsert rs e.eid e.ext e.now e.forcedRead) records

/-- A ledger mutation: either a delivery (an `upsert`) or the bulk
mark-all-read action. -/
inductive LedgerOp where
  | deliver (e : DeliveryEvent)
  | markAll
deriving DecidableEq, Inhabited, Repr

/-- Apply one ledger mutation. -/
def applyOp (records : List NotificationContent) : LedgerOp → List NotificationContent
  | .deliver e => upsert records e.eid e.ext e.now e.forcedRead
  | .markAll => markAllNotificationsAsRead records

/-- Apply a sequence of ledger mutations. -/
def applyOps (records : List NotificationContent) (ops : List LedgerOp) :
    List NotificationContent :=
  ops.foldl applyOp records

theorem upsert_eq_upsertRec (records : List NotificationContent) (eid : String)
    (ext : Extracted) (now : Nat) (forcedRead : Bool) :
    upsert records eid ext now forcedRead = upsertRec records eid ext now forcedRead := by
  induction records with
  | nil => rfl
  | cons r rest ih =>
    by_cases hp : (r.id == eid) = true
    · simp [upsert, upsertRec, findIndex, hp, List.getD]
    · cases hfi : findIndex (fun n => n.id == eid) rest with
      | none =>
        simp [upsert, upsertRec, findIndex, hp, hfi, ← ih]
      | some i =>
        simp [upsert, upsertRec, findIndex, hp, hfi, List.getD, ← ih]

theorem upsertRec_map_id (records : List NotificationContent) (eid : String)
    (ext : Extracted) (now : Nat) (forcedRead : Bool) :
    (upsertRec records eid ext now forcedRead).map (fun n => n.id) =
      if eid ∈ records.map (fun n => n.id) then records.map (fun n => n.id)
      else records.map (fun n => n.id) ++ [eid] := by
  induction records with
  | nil => simp [upsertRec, freshRecord]
  | cons r rest ih =>
    by_cases hp : (r.id == eid) = true
    · have heq : r.id = eid := by simpa using hp
      simp [upsertRec, hp, mergeRecord, heq]
    · have hne : ¬(eid = r.id) := fun h => hp (by simp [h])
      by_cases hm : eid ∈ rest.map (fun n => n.id)
      · simp [upsertRec, hp, ih, hm, hne]
      · simp [upsertRec, hp, ih, hm, hne]

theorem upsertRec_length (records : List NotificationContent) (eid : String)
    (ext : Extracted) (now : Nat) (forcedRead : Bool) :
    (upsertRec records eid ext now forcedRead).length =
      if records.any (fun n => n.id == eid) then records.length
      else records.length + 1 := by
  induction records with
  | nil => simp [upsertRec]
  | cons r rest ih =>
    by_cases hp : (r.id == eid) = true
    · simp [upsertRec, hp]
    · by_cases hm : rest.any (fun n => n.id == eid)
      · simp [upsertRec, hp, ih, hm]
      · simp [upsertRec, hp, ih, hm]

theorem upsertRec_frame (records : List NotificationContent) (eid : String)
    (ext : Extracted) (now : Nat) (forcedRead : Bool) :
    ∀ j (hj : j < records.length), (records.get ⟨j, hj⟩).id ≠ eid →
      (upsertRec records eid ext now forcedRead)[j]? = some (records.get ⟨j, hj⟩) := by
  induction records with
  | nil => intro j hj; exact absurd hj (by simp)
  | cons r rest ih =>
    intro j hj hne
    match j with
    | 0 =>
      have hp : ¬((r.id == eid) = true) := by simpa using hne
      simp [upsertRec, hp]
    | j + 1 =>
      have hj2 : j < rest.length := by simpa using hj
      by_cases hp : (r.id == eid) = true
      · simp only [upsertRec, hp, if_pos]
        simp [List.getElem?_eq_getElem hj2]
      · simp only [upsertRec, hp, if_neg, Bool.false_eq_true, not_false_iff]
        simpa using ih j hj2 (by simpa using hne)

theorem upsertRec_upserted (records : List NotificationContent) (eid : String)
    (ext : Extracted) (now : Nat) (forcedRead : Bool) :
    ∃ r ∈ upsertRec records eid ext now forcedRead,
      r.id = eid ∧ r.title = ext.title ∧ r.body = ext.body ∧
      r.data = ext.data ∧ r.timestamp = now ∧ r.read = forcedRead := by
  induction records with
  | nil =>
    exact ⟨freshRecord eid ext now forcedRead, by simp [upsertRec],
      by simp [freshRecord]⟩
  | cons r rest ih =>
    by_cases hp : (r.id == eid) = true
    · have heq : r.id = eid := by simpa using hp
      exact ⟨mergeRecord r ext now forcedRead, by simp [upsertRec, hp],
        by simp [mergeRecord, heq]⟩
    · obtain ⟨x, hx, hprops⟩ := ih
      exact ⟨x, by simp [upsertRec, hp]; right; exact hx, hprops⟩

theorem upsert_mem_map_id (records : List NotificationContent) (eid : String)
    (ext : Extracted) (now : Nat) (forcedRead : Bool) (s : String) :
    s ∈ (upsert records eid ext now forcedRead).map (fun n => n.id) ↔
      s ∈ records.map (fun n => n.id) ∨ s = eid := by
  rw [upsert_eq_upsertRec, upsertRec_map_id]
  by_cases hm : eid ∈ records.map (fun n => n.id)
  · simp only [hm, if_pos]
    constructor
    · exact fun h => Or.inl h
    · rintro (h | rfl)
      · exact h
      · exact hm
  · simp [hm]

theorem upsert_nodup_id (records : List NotificationContent) (eid : String)
    (ext : Extracted) (now : Nat) (forcedRead : Bool)
    (h : (records.map (fun n => n.id)).Nodup) :
    ((upsert records eid ext now forcedRead).map (fun n => n.id)).Nodup := by
  rw [upsert_eq_upsertRec, upsertRec_map_id]
  by_cases hm : eid ∈ records.map (fun n => n.id)
  · simpa [hm] using h
  · simp [hm, List.nodup_append, h]

theorem applyDeliveries_nodup_mem (events : List DeliveryEvent) :
    ∀ init : List NotificationContent,
      (init.map (fun n => n.id)).Nodup →
      ((applyDeliveries init events).map (fun n => n.id)).Nodup ∧
      ∀ s : String, s ∈ (applyDeliveries init events).map (fun n => n.id) ↔
        (s ∈ init.map (fun n => n.id) ∨ ∃ e ∈ events, e.eid = s) := by
  induction events with
  | nil => intro init h; simpa [applyDeliveries] using h
  | cons e es ih =>
    intro init h
    have hstep : applyDeliveries init (e :: es) =
        applyDeliveries (upsert init e.eid e.ext e.now e.forcedRead) es := by
      simp [applyDeliveries]
    have hnd := upsert_nodup_id init e.eid e.ext e.now e.forcedRead h
    obtain ⟨hnd2, hmem⟩ := ih (upsert init e.eid e.ext e.now e.forcedRead) hnd
    rw [hstep]
    refine ⟨hnd2, fun s => ?_⟩
    rw [hmem s, upsert_mem_map_id]
    constructor
    · rintro ((hs | rfl) | ⟨x, hx, rfl⟩)
      · exact Or.inl hs
      · exact Or.inr ⟨e, by simp⟩
      · exact Or.inr ⟨x, by simp [hx]⟩
    · rintro (hs | ⟨x, hx, rfl⟩)
      · exact Or.inl (Or.inl hs)
      · rcases List.mem_cons.mp hx with rfl | hx2
        · exact Or.inl (Or.inr rfl)
        · exact Or.inr ⟨x, hx2, rfl⟩

theorem upsert_upserted (records : List NotificationContent) (eid : String)
    (ext : Extracted) (now : Nat) (forcedRead : Bool) :
    ∃ r ∈ upsert records eid ext now forcedRead,
      r.id = eid ∧ r.title = ext.title ∧ r.body = ext.body ∧
      r.data = ext.data ∧ r.timestamp = now ∧ r.read = forcedRead := by
  rw [upsert_eq_upsertRec]
  exact upsertRec_upserted records eid ext now forcedRead

theorem upsertRec_append_of_not_mem (records : List NotificationContent)
    (eid : String) (ext : Extracted) (now : Nat) (forcedRead : Bool)
    (h : ∀ r ∈ records, r.id ≠ eid) :
    upsertRec records eid ext now forcedRead =
      records ++ [freshRecord eid ext now forcedRead] := by
  induction records with
  | nil => rfl
  | cons r rest ih =>
    have hp : ¬((r.id == eid) = true) := by
      simpa using h r (List.mem_cons_self r rest)
    simp [upsertRec, hp, ih (fun x hx => h x (List.mem_cons_of_mem r hx))]

theorem upsertRec_set_of_first (records : List NotificationContent)
    (eid : String) (ext : Extracted) (now : Nat) (forcedRead : Bool) :
    ∀ i (hi : i < records.length),
      (records.get ⟨i, hi⟩).id = eid →
      (∀ j (hj : j < i), (records.get ⟨j, Nat.lt_trans hj hi⟩).id ≠ eid) →
      upsertRec records eid ext now forcedRead =
        records.set i (mergeRecord (records.get ⟨i, hi⟩) ext now forcedRead) := by
  induction records with
  | nil => intro i hi; exact absurd hi (by simp)
  | cons r rest ih =>
    intro i hi hp hfirst
    match i with
    | 0 =>
      have hr : (r.id == eid) = true := by simpa using hp
      simp [upsertRec, hr]
    | i + 1 =>
      have h0 : ¬((r.id == eid) = true) := by
        simpa using hfirst 0 (Nat.succ_pos i)
      have hi2 : i < rest.length := by simpa using hi
      have hrec := ih i hi2 (by simpa using hp)
        (fun j hj => by simpa using hfirst (j + 1) (Nat.succ_lt_succ hj))
      simp [upsertRec, h0, hrec]

theorem decodeData_encode (d : DataMap) :
    decodeData (d.map (fun p => (p.1, Json.str p.2))) = some d := by
  induction d with
  | nil => rfl
  | cons p rest ih =>
    cases p
    simp [decodeData, ih]

theorem decodeRecord_encodeRecord (n : NotificationContent) :
    decodeRecord (encodeRecord n) = some n := by
  cases n with
  | mk i t b ts r d =>
    cases d with
    | none => rfl
    | some dm => simp [encodeRecord, decodeRecord, decodeData_encode]

theorem decodeRecordList_encode (records : List NotificationContent) :
    decodeRecordList (records.map encodeRecord) = some records := by
  induction records with
  | nil => rfl
  | cons r rest ih => simp [decodeRecordList, decodeRecord_encodeRecord, ih]

theorem markAll_twice (records : List NotificationContent) :
    markAllNotificationsAsRead (markAllNotificationsAsRead records) =
      markAllNotificationsAsRead records := by
  induction records with
  | nil => rfl
  | cons r rest ih =>
    simp only [markAllNotificationsAsRead, List.map_cons] at *
    simp [ih]

theorem unreadCount_countP (records : List NotificationContent) :
    unreadCount records = records.countP (fun n => n.read = false) := by
  have hfun : (fun n : NotificationContent => !n.read) =
      (fun n : NotificationContent => decide (n.read = false)) := by
    funext n
    cases hn : n.read <;> simp
  rw [unreadCount, hfun, List.countP_eq_length_filter]

/-- C1: starting from a ledger with at most one record per id (ids nodup),
after any sequence of delivery upserts the ledger still has nodup ids, and
every id seen (pre-existing or delivered, repeats included) is held by
exactly one record. -/
theorem upsert_preserves_at_most_one_record_per_id
    (init : List NotificationContent) (events : List DeliveryEvent)
    (h : (init.map (fun n => n.id)).Nodup) :
    ((applyDeliveries init events).map (fun n => n.id)).Nodup ∧
    ∀ s : String,
      (s ∈ init.map (fun n => n.id) ∨ ∃ e ∈ events, e.eid = s) →
      (applyDeliveries init events).countP (fun n => n.id == s) = 1 := by
  obtain ⟨hnd, hmem⟩ := applyDeliveries_nodup_mem events init h
  refine ⟨hnd, fun s hs => ?_⟩
  have hm : s ∈ (applyDeliveries init events).map (fun n => n.id) :=
    (hmem s).mpr hs
  have hcount := List.count_eq_one_of_mem hnd hm
  simpa [List.count_eq_countP, List.countP_map, Function.comp] using hcount

theorem upsert_preserves_at_most_one_record_per_id_witness :
    (applyDeliveries []
      [⟨"m1", ⟨"a", "b", none⟩, 5, false⟩,
       ⟨"m1", ⟨"c", "d", none⟩, 6, true⟩]).countP (fun n => n.id == "m1") = 1 :=
  (upsert_preserves_at_most_one_record_per_id []
      [⟨"m1", ⟨"a", "b", none⟩, 5, false⟩, ⟨"m1", ⟨"c", "d", none⟩, 6, true⟩]
      (by simp)).2 "m1"
    (Or.inr ⟨⟨"m1", ⟨"a", "b", none⟩, 5, false⟩, by simp, rfl⟩)

/-- C2: upsert with an id already present keeps the length; with a novel id
it adds exactly one. -/
theorem upsert_length_spec (records : List NotificationContent) (eid : String)
    (ext : Extracted) (now : Nat) (forcedRead : Bool) :
    (upsert records eid ext now forcedRead).length =
      if records.any (fun n => n.id == eid) then records.length
      else records.length + 1 := by
  rw [upsert_eq_upsertRec]
  exact upsertRec_length records eid ext now forcedRead

/-- C3: the badge projection equals the number of records with read false,
for every list and in particular for any ledger built by upserts and
mark-all-read steps; it is a total function. -/
theorem unreadCount_counts_unread :
    (∀ records : List NotificationContent,
      unreadCount records = records.countP (fun n => n.read = false)) ∧
    (∀ (init : List NotificationContent) (ops : List LedgerOp),
      unreadCount (applyOps init ops) =
        (applyOps init ops).countP (fun n => n.read = false)) :=
  ⟨unreadCount_countP, fun init ops => unreadCount_countP (applyOps init ops)⟩

/-- C4: upsert replaces the first record matching the incoming id by the
old record merged with the new title, body and data, timestamp overwritten
to now and read to the forced value; with no match it appends a fresh
record carrying the id, extracted fields, timestamp now and the forced
read value. -/
theorem upsert_merge_or_append (records : List NotificationContent)
    (eid : String) (ext : Extracted) (now : Nat) (forcedRead : Bool) :
    (∀ i (hi : i < records.length),
      (records.get ⟨i, hi⟩).id = eid →
      (∀ j (hj : j < i), (records.get ⟨j, Nat.lt_trans hj hi⟩).id ≠ eid) →
      upsert records eid ext now forcedRead =
        records.set i (mergeRecord (records.get ⟨i, hi⟩) ext now forcedRead)) ∧
    ((∀ r ∈ records, r.id ≠ eid) →
      upsert records eid ext now forcedRead =
        records ++ [freshRecord eid ext now forcedRead]) := by
  constructor
  · intro i hi hp hfirst
    rw [upsert_eq_upsertRec]
    exact upsertRec_set_of_first records eid ext now forcedRead i hi hp hfirst
  · intro h
    rw [upsert_eq_upsertRec]
    exact upsertRec_append_of_not_mem records eid ext now forcedRead h

theorem upsert_merge_or_append_witness :
    upsert [⟨"m1", "t", "b", 0, false, none⟩] "m1" ⟨"T2", "B2", none⟩ 7 true =
      [⟨"m1", "T2", "B2", 7, true, none⟩] ∧
    upsert [] "m2" ⟨"T", "B", none⟩ 3 false =
      [⟨"m2", "T", "B", 3, false, none⟩] := by
  constructor
  · have h := (upsert_merge_or_append [⟨"m1", "t", "b", 0, false, none⟩]
      "m1" ⟨"T2", "B2", none⟩ 7 true).1 0 (by decide) rfl
      (fun j hj => absurd hj (Nat.not_lt_zero j))
    rw [h]; rfl
  · have h := (upsert_merge_or_append [] "m2" ⟨"T", "B", none⟩ 3 false).2
      (fun r hr => absurd hr (List.not_mem_nil r))
    rw [h]; rfl

/-- C5: the foreground and background delivery handlers upsert with forced
read false; the tap-to-open handlers (from background and from terminated)
upsert with forced read true.  In each case the record stored for the
incoming id ends with that read value. -/
theorem handler_forced_read_values (records : List NotificationContent)
    (remoteMessage : RemoteMessage) (now : Nat) :
    (onMessageUpsert records remoteMessage now =
      upsert records (notificationIdOf remoteMessage now)
        (extractNotificationContent remoteMessage) now false) ∧
    (backgroundMessageUpsert records remoteMessage now =
      upsert records (notificationIdOf remoteMessage now)
        (extractNotificationContent remoteMessage) now false) ∧
    (initialNotificationUpsert records remoteMessage now =
      upsert records (notificationIdOf remoteMessage now)
        (extractNotificationContent remoteMessage) now true) ∧
    (notificationOpenedAppUpsert records remoteMessage now =
      upsert records (notificationIdOf remoteMessage now)
        (extractNotificationContent remoteMessage) now true) ∧
    (∃ r ∈ onMessageUpsert records remoteMessage now,
      r.id = notificationIdOf remoteMessage now ∧ r.read = false) ∧
    (∃ r ∈ backgroundMessageUpsert records remoteMessage now,
      r.id = notificationIdOf remoteMessage now ∧ r.read = false) ∧
    (∃ r ∈ initialNotificationUpsert records remoteMessage now,
      r.id = notificationIdOf remoteMessage now ∧ r.read = true) ∧
    (∃ r ∈ notificationOpenedAppUpsert records remoteMessage now,
      r.id = notificationIdOf remoteMessage now ∧ r.read = true) := by
  refine ⟨rfl, rfl, rfl, rfl, ?_, ?_, ?_, ?_⟩
  · obtain ⟨r, hr, hid, -, -, -, -, hread⟩ := upsert_upserted records
      (notificationIdOf remoteMessage now)
      (extractNotificationContent remoteMessage) now false
    exact ⟨r, hr, hid, hread⟩
  · obtain ⟨r, hr, hid, -, -, -, -, hread⟩ := upsert_upserted records
      (notificationIdOf remoteMessage now)
      (extractNotificationContent remoteMessage) now false
    exact ⟨r, hr, hid, hread⟩
  · obtain ⟨r, hr, hid, -, -, -, -, hread⟩ := upsert_upserted records
      (notificationIdOf remoteMessage now)
      (extractNotificationContent remoteMessage) now true
    exact ⟨r, hr, hid, hread⟩
  · obtain ⟨r, hr, hid, -, -, -, -, hread⟩ := upsert_upserted records
      (notificationIdOf remoteMessage now)
      (extractNotificationContent remoteMessage) now true
    exact ⟨r, hr, hid, hread⟩

/-- C6: marking all notifications read is idempotent, and after one
application every record is read. -/
theorem markAllRead_idempotent (records : List NotificationContent) :
    markAllNotificationsAsRead (markAllNotificationsAsRead records) =
      markAllNotificationsAsRead records ∧
    ∀ r ∈ markAllNotificationsAsRead records, r.read = true := by
  refine ⟨markAll_twice records, ?_⟩
  intro r hr
  simp only [markAllNotificationsAsRead, List.mem_map] at hr
  obtain ⟨x, -, rfl⟩ := hr
  rfl

/-- C7: saving and then loading yields exactly the saved records: the
loaded JSON value is the serialized array and it decodes back to the very
list that was saved — equal as an ordered list, hence as a set. -/
theorem save_load_roundtrip (records : List NotificationContent) :
    decodeRecords (loadNotificationsFromStorage
      (some (saveNotificationsToStorage records))) = some records ∧
    ∀ r : NotificationContent,
      r ∈ (decodeRecords (loadNotificationsFromStorage
        (some (saveNotificationsToStorage records)))).getD [] ↔ r ∈ records := by
  have h : decodeRecords (loadNotificationsFromStorage
      (some (saveNotificationsToStorage records))) = some records := by
    simp [loadNotificationsFromStorage, loadTryBody, jsonParse,
      saveNotificationsToStorage, decodeRecords, encodeRecords,
      decodeRecordList_encode]
  exact ⟨h, fun r => by rw [h]; rfl⟩

/-- C8, counterexample: a stored value that is well-formed JSON but not a
record array (for instance the string "42", parsing to the number 42) is
corrupt data — it does not decode to any record list — yet
`loadNotificationsFromStorage` returns the parsed value unchanged, not the
empty sequence. -/
theorem load_corrupt_not_empty :
    decodeRecords (loadNotificationsFromStorage
      (some (Blob.wellformed (Json.num 42)))) = none ∧
    loadNotificationsFromStorage (some (Blob.wellformed (Json.num 42))) ≠
      Json.arr [] := by
  refine ⟨rfl, fun h => ?_⟩
  exact nomatch h

/-- C8, amended: load never raises (the catch clause makes it total); on a
missing value or a value that fails JSON parsing it returns the empty
array; a value that parses is returned as-is, without validating that it
is a record array. -/
theorem load_fails_soft (cell : Option Blob) :
    ((cell = none ∨ cell = some Blob.malformed) →
      loadNotificationsFromStorage cell = Json.arr []) ∧
    (∀ j : Json, cell = some (Blob.wellformed j) →
      loadNotificationsFromStorage cell = j) := by
  constructor
  · rintro (rfl | rfl) <;> rfl
  · rintro j rfl
    rfl

theorem load_fails_soft_witness :
    loadNotificationsFromStorage none = Json.arr [] ∧
    loadNotificationsFromStorage (some Blob.malformed) = Json.arr [] ∧
    loadNotificationsFromStorage (some (Blob.wellformed (Json.num 42))) =
      Json.num 42 :=
  ⟨(load_fails_soft none).1 (Or.inl rfl),
   (load_fails_soft (some Blob.malformed)).1 (Or.inr rfl),
   (load_fails_soft (some (Blob.wellformed (Json.num 42)))).2 (Json.num 42) rfl⟩

/-- C9: display-field extraction prefers the explicit notification block;
with no notification block it falls back to the data block; with neither
it yields the fixed defaults "New Message" and "You have a new
notification."; each field separately falls back to its default when its
preferred source is absent or empty.  All four handlers extract through
this one function. -/
theorem extract_preference_order (remoteMessage : RemoteMessage) :
    (∀ nb, remoteMessage.notification = some nb →
      extractNotificationContent remoteMessage =
        { title := orDefault nb.title "New Message",
          body := orDefault nb.body "You have a new notification.",
          data := remoteMessage.data }) ∧
    (∀ d, remoteMessage.notification = none → remoteMessage.data = some d →
      extractNotificationContent remoteMessage =
        { title := orDefault (d.lookup "title") "New Message",
          body := orDefault (d.lookup "body") "You have a new notification.",
          data := remoteMessage.data }) ∧
    (remoteMessage.notification = none → remoteMessage.data = none →
      extractNotificationContent remoteMessage =
        { title := "New Message", body := "You have a new notification.",
          data := none }) := by
  refine ⟨?_, ?_, ?_⟩
  · intro nb hn
    simp [extractNotificationContent, hn]
  · intro d hn hd
    simp [extractNotificationContent, hn, hd]
  · intro hn hd
    simp [extractNotificationContent, hn, hd]

theorem extract_preference_order_witness :
    extractNotificationContent ⟨some "id1", some ⟨some "T", some "B"⟩,
      some [("title", "DT")]⟩ = ⟨"T", "B", some [("title", "DT")]⟩ ∧
    extractNotificationContent ⟨some "id2", none, some [("title", "DT")]⟩ =
      ⟨"DT", "You have a new notification.", some [("title", "DT")]⟩ ∧
    extractNotificationContent ⟨some "id3", none, none⟩ =
      ⟨"New Message", "You have a new notification.", none⟩ := by
  refine ⟨?_, ?_, ?_⟩
  · have h := (extract_preference_order ⟨some "id1", some ⟨some "T", some "B"⟩,
      some [("title", "DT")]⟩).1 ⟨some "T", some "B"⟩ rfl
    rw [h]; decide
  · have h := (extract_preference_order
      ⟨some "id2", none, some [("title", "DT")]⟩).2.1 [("title", "DT")] rfl rfl
    rw [h]; decide
  · have h := (extract_preference_order ⟨some "id3", none, none⟩).2.2 rfl rfl
    rw [h]

/-- C10: frame property — every record whose id differs from the incoming
id is unchanged and keeps its position; with a novel id the fresh record is
appended at the end, leaving all pre-existing positions intact. -/
theorem upsert_frame (records : List NotificationContent) (eid : String)
    (ext : Extracted) (now : Nat) (forcedRead : Bool) :
    (∀ j (hj : j < records.length), (records.get ⟨j, hj⟩).id ≠ eid →
      (upsert records eid ext now forcedRead)[j]? =
        some (records.get ⟨j, hj⟩)) ∧
    ((∀ r ∈ records, r.id ≠ eid) →
      upsert records eid ext now forcedRead =
        records ++ [freshRecord eid ext now forcedRead]) := by
  constructor
  · intro j hj hne
    rw [upsert_eq_upsertRec]
    exact upsertRec_frame records eid ext now forcedRead j hj hne
  · intro h
    rw [upsert_eq_upsertRec]
    exact upsertRec_append_of_not_mem records eid ext now forcedRead h

theorem upsert_frame_witness :
    (upsert [⟨"a", "t", "b", 1, false, none⟩] "b" ⟨"T", "B", none⟩ 5 true)[0]? =
      some ⟨"a", "t", "b", 1, false, none⟩ ∧
    upsert [⟨"a", "t", "b", 1, false, none⟩] "b" ⟨"T", "B", none⟩ 5 true =
      [⟨"a", "t", "b", 1, false, none⟩] ++ [freshRecord "b" ⟨"T", "B", none⟩ 5 true] := by
  constructor
  · exact (upsert_frame [⟨"a", "t", "b", 1, false, none⟩] "b"
      ⟨"T", "B", none⟩ 5 true).1 0 (by decide) (by decide)
  · exact (upsert_frame [⟨"a", "t", "b", 1, false, none⟩] "b"
      ⟨"T", "B", none⟩ 5 true).2 (by decide)

theorem markAllRead_idempotent_witness :
    markAllNotificationsAsRead (markAllNotificationsAsRead
      [⟨"a", "t", "b", 1, false, none⟩]) =
      markAllNotificationsAsRead [⟨"a", "t", "b", 1, false, none⟩] ∧
    (⟨"a", "t", "b", 1, true, none⟩ : NotificationContent).read = true := by
  refine ⟨(markAllRead_idempotent [⟨"a", "t", "b", 1, false, none⟩]).1, ?_⟩
  exact (markAllRead_idempotent [⟨"a", "t", "b", 1, false, none⟩]).2
    ⟨"a", "t", "b", 1, true, none⟩ (by decide)
